import Mathlib

/-
Shallow embedding of the Reddit sentiment-analysis backend
(src/backend/analysis.py) for claim verification.

Modelling conventions:
- The SQL store (tables reddit_posts / reddit_comments) is a pair of lists
  of rows; session.merge is insert-or-replace keyed by the primary id.
- Python floats that carry sentiment scalars are modelled as exact
  rationals; 0.8 is 8/10 and so on.
- External effects (the PRAW network calls, exceptions raised by the
  database driver) are modelled by explicit inputs: the fetch result is an
  Option, and failure oracles say which writes raise.
- The coordinator spawns one comment-collector thread per post and joins
  them all before finishing; we record its observable actions as an event
  trace, and apply each collector's store effect at its dispatch point
  (a valid serialization: a collector only reads its own parent row and
  only writes comment rows, so its effect commutes with the coordinator's
  post writes for other posts).
-/

set_option linter.unusedVariables false
set_option linter.unusedTactic false
set_option autoImplicit false

/-- Row of the reddit_posts table (model RedditPost in analysis.py). -/
structure RedditPost where
  id : String
  subreddit : String
  author : String
  title : String
  content : String
  upvotes : Int
  comments : Int
  timestamp : Int
  sentiment : ℚ
  search_phrase : String
deriving DecidableEq, Repr

/-- Row of the reddit_comments table (model RedditComment in analysis.py). -/
structure RedditComment where
  id : String
  post_id : String
  subreddit : String
  author : String
  content : String
  score : Int
  timestamp : Int
  parent_id : String
  search_phrase : String
deriving DecidableEq, Repr

/-- The database: committed rows of both tables. -/
structure Store where
  posts : List RedditPost
  comments : List RedditComment
deriving DecidableEq, Repr

/-- A comment as returned by the external source, after the comment tree
has been fully expanded and flattened (post.comments.list() after
replace_more). A None author is modelled by Option. -/
structure Comment where
  id : String
  authorName : Option String
  body : String
  score : Int
  createdUtc : Int
  parentId : String
deriving DecidableEq, Repr

/-- A submission as returned by the external source search. commentsList is
the flattened comment tree the source would deliver for this post. -/
structure Post where
  id : String
  subreddit : String
  authorName : Option String
  title : String
  selftext : String
  score : Int
  numComments : Int
  createdUtc : Int
  commentsList : List Comment
deriving DecidableEq, Repr

/-- session.merge for the reddit_posts table: insert-or-replace keyed by
the primary id column. -/
def upsertP (x : RedditPost) : List RedditPost → List RedditPost
  | [] => [x]
  | y :: ys => if y.id = x.id then x :: ys else y :: upsertP x ys

/-- session.merge for the reddit_comments table: insert-or-replace keyed by
the primary id column. -/
def upsertC (x : RedditComment) : List RedditComment → List RedditComment
  | [] => [x]
  | y :: ys => if y.id = x.id then x :: ys else y :: upsertC x ys

/-- session.query(RedditPost).get(id): look up a committed post row by
primary id. -/
def getPost (s : Store) (i : String) : Option RedditPost :=
  s.posts.find? (fun p => p.id = i)

/-- sentiment_category from analysis.py, line for line; the float
thresholds 0.8, 0.4, -0.4, -0.8 are the exact rationals. -/
def sentiment_category (compound : ℚ) : String :=
  if compound > 8/10 then "Very Positive"
  else if compound > 4/10 then "Positive"
  else if compound ≥ -(4/10) then "Neutral"
  else if compound ≥ -(8/10) then "Negative"
  else "Very Negative"

/-- C2: for every sentiment scalar in [-1, 1], sentiment_category returns
exactly one of the five fixed bucket names, each bucket is returned exactly
on its spec interval (s > 0.8 Very Positive, 0.4 < s ≤ 0.8 Positive,
-0.4 ≤ s ≤ 0.4 Neutral, -0.8 ≤ s < -0.4 Negative, s < -0.8 Very Negative),
and the five conditions partition [-1, 1] with no gap and no overlap,
boundary values included. -/
theorem sentiment_category_partitions (s : ℚ) (hs : -1 ≤ s ∧ s ≤ 1) :
    (sentiment_category s = "Very Positive" ↔ 8/10 < s) ∧
    (sentiment_category s = "Positive" ↔ 4/10 < s ∧ s ≤ 8/10) ∧
    (sentiment_category s = "Neutral" ↔ -(4/10) ≤ s ∧ s ≤ 4/10) ∧
    (sentiment_category s = "Negative" ↔ -(8/10) ≤ s ∧ s < -(4/10)) ∧
    (sentiment_category s = "Very Negative" ↔ s < -(8/10)) ∧
    (sentiment_category s = "Very Positive" ∨ sentiment_category s = "Positive" ∨
     sentiment_category s = "Neutral" ∨ sentiment_category s = "Negative" ∨
     sentiment_category s = "Very Negative") := by
  clear hs
  unfold sentiment_category
  split_ifs with h1 h2 h3 h4
  · refine ⟨⟨fun _ => h1, fun _ => rfl⟩, ?_, ?_, ?_, ?_, Or.inl rfl⟩ <;>
      constructor <;> intro h <;> first
      | exact absurd h (by decide)
      | (exfalso; linarith [h.2])
      | (exfalso; linarith)
  · refine ⟨?_, ⟨fun _ => ⟨h2, by linarith⟩, fun _ => rfl⟩, ?_, ?_, ?_,
      Or.inr (Or.inl rfl)⟩ <;>
      constructor <;> intro h <;> first
      | exact absurd h (by decide)
      | (exfalso; linarith [h.2])
      | (exfalso; linarith [h.1])
      | (exfalso; linarith)
  · refine ⟨?_, ?_, ⟨fun _ => ⟨h3, by linarith⟩, fun _ => rfl⟩, ?_, ?_,
      Or.inr (Or.inr (Or.inl rfl))⟩ <;>
      constructor <;> intro h <;> first
      | exact absurd h (by decide)
      | (exfalso; linarith [h.2])
      | (exfalso; linarith [h.1])
      | (exfalso; linarith)
  · refine ⟨?_, ?_, ?_, ⟨fun _ => ⟨h4, by linarith⟩, fun _ => rfl⟩, ?_,
      Or.inr (Or.inr (Or.inr (Or.inl rfl)))⟩ <;>
      constructor <;> intro h <;> first
      | exact absurd h (by decide)
      | (exfalso; linarith [h.2])
      | (exfalso; linarith [h.1])
      | (exfalso; linarith)
  · refine ⟨?_, ?_, ?_, ?_, ⟨fun _ => by linarith, fun _ => rfl⟩,
      Or.inr (Or.inr (Or.inr (Or.inr rfl)))⟩ <;>
      constructor <;> intro h <;> first
      | exact absurd h (by decide)
      | (exfalso; linarith [h.2])
      | (exfalso; linarith [h.1])
      | (exfalso; linarith)

/-- Concrete instantiation of the bucket partition theorem at s = 0. -/
theorem sentiment_category_partitions_witness :
    sentiment_category 0 = "Neutral" ↔ -(4/10) ≤ (0 : ℚ) ∧ (0 : ℚ) ≤ 4/10 :=
  (sentiment_category_partitions 0 (by constructor <;> decide)).2.2.1

/-- RedditComment row constructed in the comment loop of process_comments:
author defaults to the sentinel when the source author is deleted. -/
def mkRedditComment (post : Post) (phrase : String) (c : Comment) : RedditComment :=
  { id := c.id
    post_id := post.id
    subreddit := post.subreddit
    author := c.authorName.getD "N/A"
    content := c.body
    score := c.score
    timestamp := c.createdUtc
    parent_id := c.parentId
    search_phrase := phrase }

/-- The comment loop of process_comments: for each fetched comment, skip it
when its id is falsy, when the double-check for the parent row fails, or
when building the row raises (childFails oracle); otherwise merge the row
into the session's staged (not yet committed) set. -/
def stageComments (store : Store) (post : Post) (phrase : String)
    (childFails : String → Bool) : List Comment → List RedditComment → List RedditComment
  | [], acc => acc
  | c :: rest, acc =>
    if c.id = "" then stageComments store post phrase childFails rest acc
    else if (getPost store post.id).isNone then
      stageComments store post phrase childFails rest acc
    else if childFails c.id then stageComments store post phrase childFails rest acc
    else stageComments store post phrase childFails rest
      (upsertC (mkRedditComment post phrase c) acc)

/-- session.commit applied to the staged rows: each is merged into the
comments table in staging order. -/
def upsertAllC : List RedditComment → List RedditComment → List RedditComment
  | [], cs => cs
  | rc :: rest, cs => upsertAllC rest (upsertC rc cs)

/-- process_comments from analysis.py: guard on the parent row, stage every
comment of the flattened tree, then commit once at the end; commitFails
models the try block raising (during tree expansion or at commit), in which
case the session is rolled back and the store is unchanged. -/
def process_comments (store : Store) (post : Post) (phrase : String)
    (childFails : String → Bool) (commitFails : Bool) : Store :=
  match getPost store post.id with
  | none => store
  | some _ =>
    if commitFails then store
    else { store with
      comments := upsertAllC
        (stageComments store post phrase childFails post.commentsList []) store.comments }

theorem mem_upsertC {x rc : RedditComment} {l : List RedditComment}
    (h : rc ∈ upsertC x l) : rc = x ∨ rc ∈ l := by
  induction l with
  | nil => simpa [upsertC] using h
  | cons y ys ih =>
    unfold upsertC at h
    by_cases hy : y.id = x.id
    · rw [if_pos hy] at h
      rcases List.mem_cons.mp h with h | h
      · exact Or.inl h
      · exact Or.inr (List.mem_cons_of_mem _ h)
    · rw [if_neg hy] at h
      rcases List.mem_cons.mp h with h | h
      · exact Or.inr (by simp [h])
      · rcases ih h with h' | h'
        · exact Or.inl h'
        · exact Or.inr (List.mem_cons_of_mem _ h')

theorem mem_upsertC_self (x : RedditComment) (l : List RedditComment) :
    x ∈ upsertC x l := by
  induction l with
  | nil => simp [upsertC]
  | cons y ys ih =>
    unfold upsertC
    by_cases hy : y.id = x.id
    · rw [if_pos hy]; exact List.mem_cons_self _ _
    · rw [if_neg hy]; exact List.mem_cons_of_mem _ ih

theorem mem_upsertC_of_ne {x rc : RedditComment} {l : List RedditComment}
    (h : rc ∈ l) (hne : rc.id ≠ x.id) : rc ∈ upsertC x l := by
  induction l with
  | nil => cases h
  | cons y ys ih =>
    unfold upsertC
    rcases List.mem_cons.mp h with rfl | h'
    · rw [if_neg (by simpa using hne)]
      exact List.mem_cons_self _ _
    · by_cases hy : y.id = x.id
      · rw [if_pos hy]
        exact List.mem_cons_of_mem _ h'
      · rw [if_neg hy]
        exact List.mem_cons_of_mem _ (ih h')

theorem mem_upsertAllC {rc : RedditComment} :
    ∀ (staged cs : List RedditComment),
      rc ∈ upsertAllC staged cs → rc ∈ staged ∨ rc ∈ cs
  | [], cs, h => Or.inr h
  | x :: rest, cs, h => by
    rcases mem_upsertAllC rest (upsertC x cs) h with h' | h'
    · exact Or.inl (List.mem_cons_of_mem _ h')
    · rcases mem_upsertC h' with h'' | h''
      · exact Or.inl (by simp [h''])
      · exact Or.inr h''

theorem mem_stageComments {store : Store} {post : Post} {phrase : String}
    {childFails : String → Bool} :
    ∀ (cl : List Comment) (acc : List RedditComment) (rc : RedditComment),
      rc ∈ stageComments store post phrase childFails cl acc →
      rc ∈ acc ∨ ∃ c ∈ cl, rc = mkRedditComment post phrase c ∧
        c.id ≠ "" ∧ childFails c.id = false
  | [], acc, rc, h => Or.inl h
  | c :: rest, acc, rc, h => by
    rw [stageComments] at h
    by_cases h1 : c.id = ""
    · rw [if_pos h1] at h
      rcases mem_stageComments rest acc rc h with h' | ⟨c', hc', e⟩
      · exact Or.inl h'
      · exact Or.inr ⟨c', List.mem_cons_of_mem _ hc', e⟩
    · rw [if_neg h1] at h
      by_cases h2 : (getPost store post.id).isNone = true
      · rw [if_pos h2] at h
        rcases mem_stageComments rest acc rc h with h' | ⟨c', hc', e⟩
        · exact Or.inl h'
        · exact Or.inr ⟨c', List.mem_cons_of_mem _ hc', e⟩
      · rw [if_neg h2] at h
        by_cases h3 : childFails c.id = true
        · rw [if_pos h3] at h
          rcases mem_stageComments rest acc rc h with h' | ⟨c', hc', e⟩
          · exact Or.inl h'
          · exact Or.inr ⟨c', List.mem_cons_of_mem _ hc', e⟩
        · rw [if_neg h3] at h
          rcases mem_stageComments rest _ rc h with h' | ⟨c', hc', e⟩
          · rcases mem_upsertC h' with e' | h''
            · exact Or.inr ⟨c, List.mem_cons_self _ _, e', h1,
                Bool.eq_false_iff.mpr h3⟩
            · exact Or.inl h''
          · exact Or.inr ⟨c', List.mem_cons_of_mem _ hc', e⟩

/-- The posts table is never touched by the comment collector. -/
theorem process_comments_posts (store : Store) (post : Post) (phrase : String)
    (childFails : String → Bool) (commitFails : Bool) :
    (process_comments store post phrase childFails commitFails).posts = store.posts := by
  unfold process_comments
  cases getPost store post.id with
  | none => rfl
  | some p =>
    by_cases hb : commitFails = true
    · rw [hb]; rfl
    · rw [Bool.eq_false_iff.mpr hb]; rfl

theorem key_upsertC {pid i : String} {x : RedditComment} {l : List RedditComment}
    (h : ∃ rc ∈ l, rc.id = i ∧ rc.post_id = pid) (hx : x.post_id = pid) :
    ∃ rc ∈ upsertC x l, rc.id = i ∧ rc.post_id = pid := by
  by_cases hxi : x.id = i
  · exact ⟨x, mem_upsertC_self x l, hxi, hx⟩
  · obtain ⟨rc, hm, hi, hp⟩ := h
    refine ⟨rc, mem_upsertC_of_ne hm ?_, hi, hp⟩
    intro e
    exact hxi (e ▸ hi)

theorem stage_key_mono {store : Store} {post : Post} {phrase : String}
    {childFails : String → Bool} {i : String} :
    ∀ (cl : List Comment) (acc : List RedditComment),
      (∃ rc ∈ acc, rc.id = i ∧ rc.post_id = post.id) →
      ∃ rc ∈ stageComments store post phrase childFails cl acc,
        rc.id = i ∧ rc.post_id = post.id
  | [], acc, h => h
  | c :: rest, acc, h => by
    rw [stageComments]
    by_cases h1 : c.id = ""
    · rw [if_pos h1]; exact stage_key_mono rest acc h
    · rw [if_neg h1]
      by_cases h2 : (getPost store post.id).isNone = true
      · rw [if_pos h2]; exact stage_key_mono rest acc h
      · rw [if_neg h2]
        by_cases h3 : childFails c.id = true
        · rw [if_pos h3]; exact stage_key_mono rest acc h
        · rw [if_neg h3]
          exact stage_key_mono rest _ (key_upsertC h rfl)

theorem stage_key_exists {store : Store} {post : Post} {phrase : String}
    {childFails : String → Bool} (hp : (getPost store post.id).isNone = false) :
    ∀ (cl : List Comment) (acc : List RedditComment) (c : Comment),
      c ∈ cl → c.id ≠ "" → childFails c.id = false →
      ∃ rc ∈ stageComments store post phrase childFails cl acc,
        rc.id = c.id ∧ rc.post_id = post.id
  | [], acc, c, hc, _, _ => absurd hc (List.not_mem_nil c)
  | c0 :: rest, acc, c, hc, hne, hcf => by
    rw [stageComments]
    rcases List.mem_cons.mp hc with rfl | hc'
    · rw [if_neg hne, if_neg (by simp [hp]), if_neg (by simp [hcf])]
      exact stage_key_mono rest _
        ⟨mkRedditComment post phrase c, mem_upsertC_self _ _, rfl, rfl⟩
    · by_cases h1 : c0.id = ""
      · rw [if_pos h1]; exact stage_key_exists hp rest acc c hc' hne hcf
      · rw [if_neg h1, if_neg (by simp [hp])]
        by_cases h3 : childFails c0.id = true
        · rw [if_pos h3]; exact stage_key_exists hp rest acc c hc' hne hcf
        · rw [if_neg h3]; exact stage_key_exists hp rest _ c hc' hne hcf

theorem upsertAllC_key {pid i : String} :
    ∀ (staged cs : List RedditComment),
      (∀ y ∈ staged, y.post_id = pid) →
      ((∃ rc ∈ cs, rc.id = i ∧ rc.post_id = pid) ∨ ∃ x ∈ staged, x.id = i) →
      ∃ rc ∈ upsertAllC staged cs, rc.id = i ∧ rc.post_id = pid
  | [], cs, hall, h => by
    rcases h with h | ⟨x, hx, _⟩
    · exact h
    · exact absurd hx (List.not_mem_nil x)
  | x :: rest, cs, hall, h => by
    rw [upsertAllC]
    apply upsertAllC_key rest (upsertC x cs)
      (fun y hy => hall y (List.mem_cons_of_mem _ hy))
    rcases h with h | ⟨z, hz, hzi⟩
    · exact Or.inl (key_upsertC h (hall x (List.mem_cons_self _ _)))
    · rcases List.mem_cons.mp hz with rfl | hz'
      · exact Or.inl ⟨z, mem_upsertC_self z cs, hzi, hall z (List.mem_cons_self _ _)⟩
      · exact Or.inr ⟨z, hz', hzi⟩

/-- C1: referential guard invariant. A comment row for owning parent id p
is only ever committed by the collector when a parent row with id p is
visible in the store; in particular, when the initial guard query finds no
parent row, process_comments returns the store unchanged and writes zero
child rows. -/
theorem process_comments_parent_guard (store : Store) (post : Post)
    (phrase : String) (childFails : String → Bool) (commitFails : Bool) :
    (getPost store post.id = none →
      process_comments store post phrase childFails commitFails = store) ∧
    ∀ rc ∈ (process_comments store post phrase childFails commitFails).comments,
      rc ∈ store.comments ∨
        (rc.post_id = post.id ∧ (getPost store post.id).isSome = true) := by
  constructor
  · intro h
    unfold process_comments
    rw [h]
  · intro rc hrc
    unfold process_comments at hrc
    cases hg : getPost store post.id with
    | none => rw [hg] at hrc; exact Or.inl hrc
    | some p =>
      rw [hg] at hrc
      cases commitFails with
      | true => simp at hrc; exact Or.inl hrc
      | false =>
        simp at hrc
        rcases mem_upsertAllC _ _ hrc with h | h
        · rcases mem_stageComments _ _ _ h with h0 | ⟨c, _, e, _, _⟩
          · exact absurd h0 (List.not_mem_nil rc)
          · exact Or.inr ⟨by subst e; rfl, rfl⟩
        · exact Or.inl h

/-- Sample comment with a live author. -/
def cW1 : Comment :=
  { id := "c1", authorName := some "bob", body := "great car", score := 2,
    createdUtc := 101, parentId := "t3_p1" }

/-- Sample comment whose author was deleted. -/
def cW2 : Comment :=
  { id := "c2", authorName := none, body := "hated it", score := 0,
    createdUtc := 102, parentId := "t1_c1" }

/-- Sample submission with two comments in its flattened tree. -/
def postW : Post :=
  { id := "p1", subreddit := "cars", authorName := some "alice",
    title := "Electric cars", selftext := "body text", score := 10,
    numComments := 2, createdUtc := 100000, commentsList := [cW1, cW2] }

/-- Committed parent row matching postW. -/
def rpW : RedditPost :=
  { id := "p1", subreddit := "cars", author := "alice",
    title := "Electric cars", content := "body text", upvotes := 10,
    comments := 2, timestamp := 100000, sentiment := 0, search_phrase := "ph" }

/-- Store holding exactly the parent row for postW. -/
def storeW : Store := { posts := [rpW], comments := [] }

/-- The empty store. -/
def emptyStore : Store := { posts := [], comments := [] }

/-- Child-failure oracle that fails exactly the comment with id c2. -/
def cfW : String → Bool := fun i => i == "c2"

/-- Guard instantiated: against an empty store the collector for postW
commits nothing at all. -/
theorem process_comments_parent_guard_witness :
    process_comments emptyStore postW "ph" cfW false = emptyStore :=
  (process_comments_parent_guard emptyStore postW "ph" cfW false).1 rfl

/-- C9: the collector stages all surviving children and commits them in one
batch at the end; if the commit (or the tree fetch) raises, the session is
rolled back and none of this parent's child rows are persisted, while a
failure building an individual child row skips only that child: every other
valid child is still committed. -/
theorem process_comments_single_batch (store : Store) (post : Post)
    (phrase : String) (childFails : String → Bool) :
    process_comments store post phrase childFails true = store ∧
    ((getPost store post.id).isSome = true →
      (∀ c ∈ post.commentsList, c.id ≠ "" → childFails c.id = false →
        ∃ rc ∈ (process_comments store post phrase childFails false).comments,
          rc.id = c.id ∧ rc.post_id = post.id) ∧
      (∀ i, childFails i = true → (∀ rc ∈ store.comments, rc.id ≠ i) →
        ∀ rc ∈ (process_comments store post phrase childFails false).comments,
          rc.id ≠ i)) := by
  constructor
  · unfold process_comments
    cases hg : getPost store post.id with
    | none => rfl
    | some p => simp
  · intro hsome
    obtain ⟨p, hg⟩ := Option.isSome_iff_exists.mp hsome
    constructor
    · intro c hc hne hcf
      have hall : ∀ y ∈ stageComments store post phrase childFails
          post.commentsList [], y.post_id = post.id := by
        intro y hy
        rcases mem_stageComments _ _ _ hy with h0 | ⟨c', _, e, _, _⟩
        · exact absurd h0 (List.not_mem_nil y)
        · subst e; rfl
      obtain ⟨rc, hm, hi, hpid⟩ :=
        stage_key_exists (by rw [hg]; rfl) post.commentsList [] c hc hne hcf
      have hres := upsertAllC_key _ store.comments hall (Or.inr ⟨rc, hm, hi⟩)
      unfold process_comments
      rw [hg]
      simpa using hres
    · intro i hcf hstore rc hrc
      unfold process_comments at hrc
      rw [hg] at hrc
      simp at hrc
      rcases mem_upsertAllC _ _ hrc with h | h
      · rcases mem_stageComments _ _ _ h with h0 | ⟨c', _, e, _, hcf'⟩
        · exact absurd h0 (List.not_mem_nil rc)
        · intro he
          rw [e] at he
          rw [show (mkRedditComment post phrase c').id = c'.id from rfl] at he
          rw [he] at hcf'
          rw [hcf] at hcf'
          exact Bool.noConfusion hcf'
      · exact hstore rc h

/-- Batch-commit behavior instantiated: with the parent present, a commit
failure leaves the store unchanged, while a normal commit persists the
valid comment c1 even though building c2 failed. -/
theorem process_comments_single_batch_witness :
    process_comments storeW postW "ph" cfW true = storeW ∧
    ∃ rc ∈ (process_comments storeW postW "ph" cfW false).comments,
      rc.id = cW1.id ∧ rc.post_id = postW.id :=
  ⟨(process_comments_single_batch storeW postW "ph" cfW).1,
   ((process_comments_single_batch storeW postW "ph" cfW).2 (by rfl)).1 cW1
     (by decide) (by decide) (by rfl)⟩

/-- Observable actions of one coordinator run, in program order. -/
inductive Event where
  | reset : Event
  | setTotal : Nat → Event
  | parentWrite : String → Bool → Event
  | dispatch : String → Event
  | advance : Nat → Event
  | join : String → Event
  | finish : Event
deriving DecidableEq, Repr

/-- The three module-level progress globals PROGRESS, PROCESSING_DONE and
TOTAL_POSTS of analysis.py. -/
structure ProgressState where
  PROGRESS : Nat
  PROCESSING_DONE : Bool
  TOTAL_POSTS : Nat
deriving DecidableEq, Repr

/-- PROGRESS = int((processed / TOTAL_POSTS) * 100), the float arithmetic
modelled exactly: truncating division of processed * 100 by total. -/
def advancePercent (processed total : Nat) : Nat :=
  processed * 100 / total

/-- Loop-carried state of the post loop in fetch_and_process_data. -/
structure LoopState where
  store : Store
  processed : Nat
  threads : List String
  events : List Event
deriving DecidableEq, Repr

/-- Outcome of one coordinator run: final progress globals, final store,
the comment collectors dispatched (post ids, in dispatch order), and the
trace of observable actions. -/
structure RunResult where
  progress : ProgressState
  store : Store
  dispatched : List String
  trace : List Event
deriving DecidableEq, Repr

/-- The RedditPost row built for one fetched submission; author defaults to
the sentinel when the source author is deleted. -/
def mkRedditPost (post : Post) (phrase : String) (compound : ℚ) : RedditPost :=
  { id := post.id
    subreddit := post.subreddit
    author := post.authorName.getD "N/A"
    title := post.title
    content := post.selftext
    upvotes := post.score
    comments := post.numComments
    timestamp := post.createdUtc
    sentiment := compound
    search_phrase := phrase }

/-- Text handed to the scorer: the selftext unless it is only whitespace,
in which case the title. -/
def scoreText (post : Post) : String :=
  if post.selftext.trim ≠ "" then post.selftext else post.title

/-- The post loop of fetch_and_process_data. Each post with a truthy id is
scored, its parent row merged and committed (rolled back when the write
raises, per the parentWriteFails oracle), then a comment-collector thread
is dispatched unconditionally after the try/except block, and the progress
percentage is updated. The collector's store effect is applied at its
dispatch point; see the header comment on serialization. -/
def runLoop (phrase : String) (sia : String → ℚ)
    (parentWriteFails : String → Bool) (childFails : String → String → Bool)
    (commitFails : String → Bool) (total : Nat) :
    List Post → LoopState → LoopState
  | [], ls => ls
  | post :: rest, ls =>
    if post.id = "" then
      runLoop phrase sia parentWriteFails childFails commitFails total rest ls
    else
      let compound := sia (scoreText post)
      let store1 :=
        if parentWriteFails post.id then ls.store
        else { ls.store with
          posts := upsertP (mkRedditPost post phrase compound) ls.store.posts }
      let store2 :=
        process_comments store1 post phrase (childFails post.id) (commitFails post.id)
      runLoop phrase sia parentWriteFails childFails commitFails total rest
        { store := store2
          processed := ls.processed + 1
          threads := ls.threads ++ [post.id]
          events := ls.events ++
            [Event.parentWrite post.id (!parentWriteFails post.id),
             Event.dispatch post.id,
             Event.advance (advancePercent (ls.processed + 1) total)] }

/-- fetch_and_process_data from analysis.py. PROGRESS and PROCESSING_DONE
are reset, the source is searched (fetchResult is none when that call
raises, in which case the function logs and returns at once), TOTAL_POSTS
is set to the fetched count, the post loop runs, every dispatched collector
is joined, and only then are PROGRESS = 100 and PROCESSING_DONE = true set.
The limit argument is only passed through to the external search call. -/
def fetch_and_process_data (ps : ProgressState) (store : Store)
    (fetchResult : Option (List Post)) (limit : Nat) (phrase : String)
    (sia : String → ℚ) (parentWriteFails : String → Bool)
    (childFails : String → String → Bool) (commitFails : String → Bool) :
    RunResult :=
  match fetchResult with
  | none =>
    { progress :=
        { PROGRESS := 0, PROCESSING_DONE := false, TOTAL_POSTS := ps.TOTAL_POSTS }
      store := store
      dispatched := []
      trace := [Event.reset] }
  | some posts =>
    let total := posts.length
    let ls := runLoop phrase sia parentWriteFails childFails commitFails total posts
      { store := store, processed := 0, threads := [], events := [] }
    { progress :=
        { PROGRESS := 100, PROCESSING_DONE := true, TOTAL_POSTS := total }
      store := ls.store
      dispatched := ls.threads
      trace := [Event.reset, Event.setTotal total] ++ ls.events ++
        ls.threads.map Event.join ++ [Event.finish] }

theorem mem_upsertP {x q : RedditPost} {l : List RedditPost}
    (h : q ∈ upsertP x l) : q = x ∨ q ∈ l := by
  induction l with
  | nil => simpa [upsertP] using h
  | cons y ys ih =>
    unfold upsertP at h
    by_cases hy : y.id = x.id
    · rw [if_pos hy] at h
      rcases List.mem_cons.mp h with h | h
      · exact Or.inl h
      · exact Or.inr (List.mem_cons_of_mem _ h)
    · rw [if_neg hy] at h
      rcases List.mem_cons.mp h with h | h
      · exact Or.inr (by simp [h])
      · rcases ih h with h' | h'
        · exact Or.inl h'
        · exact Or.inr (List.mem_cons_of_mem _ h')

/-- The dispatched-thread list of the loop: one entry per post with a
truthy id, in fetch order, whatever the failure oracles do. -/
theorem runLoop_threads (phrase : String) (sia : String → ℚ)
    (pw : String → Bool) (cf : String → String → Bool) (cfail : String → Bool)
    (total : Nat) :
    ∀ (posts : List Post) (ls : LoopState),
      (runLoop phrase sia pw cf cfail total posts ls).threads
        = ls.threads ++ (posts.filter (fun p => p.id ≠ "")).map Post.id
  | [], ls => by simp [runLoop]
  | post :: rest, ls => by
    rw [runLoop]
    by_cases h1 : post.id = ""
    · rw [if_pos h1, runLoop_threads phrase sia pw cf cfail total rest ls]
      simp [List.filter_cons, h1]
    · rw [if_neg h1, runLoop_threads phrase sia pw cf cfail total rest _]
      simp [List.filter_cons, h1]

/-- Loop events are only parent writes, dispatches and progress updates. -/
theorem runLoop_events_shape (phrase : String) (sia : String → ℚ)
    (pw : String → Bool) (cf : String → String → Bool) (cfail : String → Bool)
    (total : Nat) :
    ∀ (posts : List Post) (ls : LoopState),
      ∀ e ∈ (runLoop phrase sia pw cf cfail total posts ls).events,
        e ∈ ls.events ∨ (∃ i b, e = Event.parentWrite i b) ∨
          (∃ i, e = Event.dispatch i) ∨ (∃ n, e = Event.advance n)
  | [], ls, e, he => Or.inl he
  | post :: rest, ls, e, he => by
    rw [runLoop] at he
    by_cases h1 : post.id = ""
    · rw [if_pos h1] at he
      exact runLoop_events_shape phrase sia pw cf cfail total rest ls e he
    · rw [if_neg h1] at he
      rcases runLoop_events_shape phrase sia pw cf cfail total rest _ e he with
        h | h | h | h
      · simp only [List.mem_append, List.mem_cons] at h
        rcases h with h | h | h | h
        · exact Or.inl h
        · exact Or.inr (Or.inl ⟨post.id, !pw post.id, h⟩)
        · exact Or.inr (Or.inr (Or.inl ⟨post.id, h⟩))
        · simp at h
          exact Or.inr (Or.inr (Or.inr ⟨advancePercent (ls.processed + 1) total, h⟩))
      · exact Or.inr (Or.inl h)
      · exact Or.inr (Or.inr (Or.inl h))
      · exact Or.inr (Or.inr (Or.inr h))

/-- A dispatch event in the loop trace means the post id is in the final
thread list. -/
theorem runLoop_dispatch_mem (phrase : String) (sia : String → ℚ)
    (pw : String → Bool) (cf : String → String → Bool) (cfail : String → Bool)
    (total : Nat) :
    ∀ (posts : List Post) (ls : LoopState) (i : String),
      Event.dispatch i ∈ (runLoop phrase sia pw cf cfail total posts ls).events →
      Event.dispatch i ∈ ls.events ∨
        i ∈ (runLoop phrase sia pw cf cfail total posts ls).threads
  | [], ls, i, h => Or.inl h
  | post :: rest, ls, i, h => by
    rw [runLoop] at h ⊢
    by_cases h1 : post.id = ""
    · rw [if_pos h1] at h ⊢
      exact runLoop_dispatch_mem phrase sia pw cf cfail total rest ls i h
    · rw [if_neg h1] at h ⊢
      rcases runLoop_dispatch_mem phrase sia pw cf cfail total rest _ i h with
        h' | h'
      · simp only [List.mem_append, List.mem_cons] at h'
        rcases h' with h' | h' | h' | h'
        · exact Or.inl h'
        · exact absurd h' (by simp)
        · rw [runLoop_threads phrase sia pw cf cfail total rest _]
          refine Or.inr (List.mem_append.mpr (Or.inl ?_))
          cases h'
          simp
        · exact absurd h' (by simp)
      · exact Or.inr h'

/-- The successive PROGRESS values recorded in a trace. -/
def advancesOf (l : List Event) : List Nat :=
  l.filterMap (fun e =>
    match e with
    | Event.advance n => some n
    | _ => none)

theorem advancesOf_append (l₁ l₂ : List Event) :
    advancesOf (l₁ ++ l₂) = advancesOf l₁ ++ advancesOf l₂ :=
  List.filterMap_append _ _ _

theorem advancesOf_join_map (l : List String) :
    advancesOf (l.map Event.join) = [] := by
  induction l with
  | nil => rfl
  | cons x xs ih => simp [advancesOf, List.filterMap_cons, ih]

/-- The loop after n valid posts has processed count increased by n. -/
theorem runLoop_processed (phrase : String) (sia : String → ℚ)
    (pw : String → Bool) (cf : String → String → Bool) (cfail : String → Bool)
    (total : Nat) :
    ∀ (posts : List Post) (ls : LoopState),
      (runLoop phrase sia pw cf cfail total posts ls).processed
        = ls.processed + (posts.filter (fun p => p.id ≠ "")).length
  | [], ls => by simp [runLoop]
  | post :: rest, ls => by
    rw [runLoop]
    by_cases h1 : post.id = ""
    · rw [if_pos h1, runLoop_processed phrase sia pw cf cfail total rest ls]
      simp [List.filter_cons, h1]
    · rw [if_neg h1, runLoop_processed phrase sia pw cf cfail total rest _]
      simp [List.filter_cons, h1]
      omega

/-- Progress updates recorded by the loop: one per valid post, carrying
exactly the truncated percentage for each successive processed count. -/
theorem runLoop_advances (phrase : String) (sia : String → ℚ)
    (pw : String → Bool) (cf : String → String → Bool) (cfail : String → Bool)
    (total : Nat) :
    ∀ (posts : List Post) (ls : LoopState),
      advancesOf (runLoop phrase sia pw cf cfail total posts ls).events
        = advancesOf ls.events ++
          (List.range' (ls.processed + 1)
              (posts.filter (fun p => p.id ≠ "")).length).map
            (fun k => advancePercent k total)
  | [], ls => by simp [runLoop]
  | post :: rest, ls => by
    rw [runLoop]
    by_cases h1 : post.id = ""
    · rw [if_pos h1, runLoop_advances phrase sia pw cf cfail total rest ls]
      simp [List.filter_cons, h1]
    · rw [if_neg h1, runLoop_advances phrase sia pw cf cfail total rest _]
      simp only [List.filter_cons, h1, decide_not]
      simp [advancesOf_append, advancesOf, List.filterMap_cons, List.range'_succ]

/-- Any post row in the final loop store either was there already or has
the id of a fetched post. -/
theorem runLoop_store_posts (phrase : String) (sia : String → ℚ)
    (pw : String → Bool) (cf : String → String → Bool) (cfail : String → Bool)
    (total : Nat) :
    ∀ (posts : List Post) (ls : LoopState) (q : RedditPost),
      q ∈ (runLoop phrase sia pw cf cfail total posts ls).store.posts →
      q ∈ ls.store.posts ∨ ∃ p ∈ posts, q.id = p.id
  | [], ls, q, h => Or.inl h
  | post :: rest, ls, q, h => by
    rw [runLoop] at h
    by_cases h1 : post.id = ""
    · rw [if_pos h1] at h
      rcases runLoop_store_posts phrase sia pw cf cfail total rest ls q h with
        h' | ⟨p, hp, e⟩
      · exact Or.inl h'
      · exact Or.inr ⟨p, List.mem_cons_of_mem _ hp, e⟩
    · rw [if_neg h1] at h
      rcases runLoop_store_posts phrase sia pw cf cfail total rest _ q h with
        h' | ⟨p, hp, e⟩
      · rw [process_comments_posts] at h'
        by_cases hw : pw post.id = true
        · rw [if_pos hw] at h'
          exact Or.inl h'
        · rw [if_neg hw] at h'
          rcases mem_upsertP h' with e' | h''
          · exact Or.inr ⟨post, List.mem_cons_self _ _, by rw [e']; rfl⟩
          · exact Or.inl h''
      · exact Or.inr ⟨p, List.mem_cons_of_mem _ hp, e⟩

/-- Splitting a list of the form A ++ [x] at an occurrence of x that is
not in A forces the split to be at the end. -/
theorem append_singleton_split {α : Type} {A pre suf : List α} {x : α}
    (h : A ++ [x] = pre ++ x :: suf) (hx : x ∉ A) : pre = A ∧ suf = [] := by
  induction A generalizing pre with
  | nil =>
    cases pre with
    | nil =>
      simp only [List.nil_append] at h
      exact ⟨rfl, (List.cons.injEq .. ▸ h).2.symm ▸ rfl⟩
    | cons b pre' =>
      simp only [List.nil_append] at h
      obtain ⟨rfl, h2⟩ := List.cons.injEq .. ▸ h
      exact absurd (congrArg List.length h2) (by simp; omega)
  | cons a A' ih =>
    cases pre with
    | nil =>
      simp only [List.cons_append, List.nil_append] at h
      obtain ⟨rfl, _⟩ := List.cons.injEq .. ▸ h
      exact absurd (List.mem_cons_self _ _) hx
    | cons b pre' =>
      simp only [List.cons_append] at h
      obtain ⟨rfl, h2⟩ := List.cons.injEq .. ▸ h
      obtain ⟨e1, e2⟩ := ih h2 (fun hm => hx (List.mem_cons_of_mem _ hm))
      exact ⟨by rw [e1], e2⟩

/-- Progress globals left over from a previous run (nonzero total, done). -/
def psStale : ProgressState :=
  { PROGRESS := 0, PROCESSING_DONE := true, TOTAL_POSTS := 5 }

/-- Scorer stub assigning every text the neutral score. -/
def siaW : String → ℚ := fun _ => 0

/-- Parent-write oracle under which every write succeeds. -/
def pwOk : String → Bool := fun _ => false

/-- Parent-write oracle under which every write raises. -/
def pwBad : String → Bool := fun _ => true

/-- Child-failure oracle under which no comment row construction raises. -/
def cfOk : String → String → Bool := fun _ _ => false

/-- Commit oracle under which no collector commit raises. -/
def commitOk : String → Bool := fun _ => false

/-- C3 counterexample: when the initial fetch raises, the run returns at
once with PROCESSING_DONE still false and TOTAL_POSTS untouched at its
stale value 5, not 0: the tracker does not transition to done. -/
theorem fetch_error_not_done_counterexample :
    (fetch_and_process_data psStale emptyStore none 49 "cars" siaW pwOk cfOk
        commitOk).progress.PROCESSING_DONE = false ∧
    (fetch_and_process_data psStale emptyStore none 49 "cars" siaW pwOk cfOk
        commitOk).progress.TOTAL_POSTS = 5 :=
  ⟨rfl, rfl⟩

/-- C3 amended: when the initial fetch raises, fetch_and_process_data logs
and returns immediately, leaving PROGRESS = 0, PROCESSING_DONE = false and
TOTAL_POSTS at its previous value, with nothing written and no collector
dispatched — the tracker is left stuck rather than transitioned to done.
Only a successful fetch that returns zero items completes with done = true
and total = 0. -/
theorem fetch_error_leaves_tracker (ps : ProgressState) (store : Store)
    (limit : Nat) (phrase : String) (sia : String → ℚ) (pw : String → Bool)
    (cf : String → String → Bool) (cfail : String → Bool) :
    fetch_and_process_data ps store none limit phrase sia pw cf cfail =
      { progress := { PROGRESS := 0, PROCESSING_DONE := false,
                      TOTAL_POSTS := ps.TOTAL_POSTS }
        store := store, dispatched := [], trace := [Event.reset] } ∧
    (fetch_and_process_data ps store (some []) limit phrase sia pw cf
        cfail).progress
      = { PROGRESS := 100, PROCESSING_DONE := true, TOTAL_POSTS := 0 } :=
  ⟨rfl, rfl⟩

/-- C4 counterexample: with a parent write that raises, the coordinator
still dispatches a comment collector for that parent — the dispatched list
is nonempty even though no parent row was committed. -/
theorem parent_write_failure_still_dispatches_counterexample :
    (fetch_and_process_data psStale emptyStore (some [postW]) 49 "ph" siaW
        pwBad cfOk commitOk).dispatched = ["p1"] ∧
    (fetch_and_process_data psStale emptyStore (some [postW]) 49 "ph" siaW
        pwBad cfOk commitOk).store = emptyStore := by
  constructor
  · rfl
  · rfl

/-- C4 amended: on parent-write failure the coordinator logs the failure,
leaves the row unwritten, and still dispatches a collector for this parent
before continuing with the next item: the dispatched list is exactly one
collector per truthy-id post in fetch order, independent of which parent
writes fail, and the run still runs to completion. (The dispatched
collector's own guard then keeps children of an absent parent out of the
store.) -/
theorem parent_write_failure_dispatch (ps : ProgressState) (store : Store)
    (posts : List Post) (limit : Nat) (phrase : String) (sia : String → ℚ)
    (pw pw' : String → Bool) (cf : String → String → Bool)
    (cfail : String → Bool) :
    (fetch_and_process_data ps store (some posts) limit phrase sia pw cf
        cfail).dispatched
      = (posts.filter (fun p => p.id ≠ "")).map Post.id ∧
    (fetch_and_process_data ps store (some posts) limit phrase sia pw cf
        cfail).dispatched
      = (fetch_and_process_data ps store (some posts) limit phrase sia pw' cf
          cfail).dispatched ∧
    (fetch_and_process_data ps store (some posts) limit phrase sia pw cf
        cfail).progress.PROCESSING_DONE = true := by
  have h1 : ∀ pwx : String → Bool,
      (fetch_and_process_data ps store (some posts) limit phrase sia pwx cf
          cfail).dispatched
        = (posts.filter (fun p => p.id ≠ "")).map Post.id := by
    intro pwx
    show (runLoop phrase sia pwx cf cfail posts.length posts
        { store := store, processed := 0, threads := [], events := [] }).threads
      = _
    rw [runLoop_threads]
    simp
  exact ⟨h1 pw, by rw [h1 pw, h1 pw'], rfl⟩

/-- Join-before-finish argument on an explicit trace shape: if every loop
event is a parent write, a dispatch or a progress update, and every
dispatched id is in the joined-thread list, then any split of the trace at
the finish event puts the join of every dispatched collector strictly
before the finish. -/
theorem joins_before_finish_aux (ev : List Event) (ths : List String)
    (total : Nat) (pre suf : List Event) (i : String)
    (hev : ∀ e ∈ ev, (∃ j b, e = Event.parentWrite j b) ∨
      (∃ j, e = Event.dispatch j) ∨ (∃ n, e = Event.advance n))
    (hdt : ∀ j, Event.dispatch j ∈ ev → j ∈ ths)
    (hsplit : [Event.reset, Event.setTotal total] ++ ev ++
        ths.map Event.join ++ [Event.finish] = pre ++ Event.finish :: suf)
    (hdisp : Event.dispatch i ∈ [Event.reset, Event.setTotal total] ++ ev ++
        ths.map Event.join ++ [Event.finish]) :
    Event.join i ∈ pre := by
  have hfinA : Event.finish ∉
      [Event.reset, Event.setTotal total] ++ ev ++ ths.map Event.join := by
    intro hmem
    rcases List.mem_append.mp hmem with hmem | hmem
    · rcases List.mem_append.mp hmem with hmem | hmem
      · simp at hmem
      · rcases hev _ hmem with ⟨j, b, h⟩ | ⟨j, h⟩ | ⟨n, h⟩ <;>
          exact Event.noConfusion h
    · rcases List.mem_map.mp hmem with ⟨j, _, hj⟩
      exact Event.noConfusion hj
  obtain ⟨hpre, hsuf⟩ := append_singleton_split hsplit hfinA
  subst hpre
  have hdev : Event.dispatch i ∈ ev := by
    rcases List.mem_append.mp hdisp with hmem | hmem
    · rcases List.mem_append.mp hmem with hmem | hmem
      · rcases List.mem_append.mp hmem with hmem | hmem
        · simp at hmem
        · exact hmem
      · rcases List.mem_map.mp hmem with ⟨j, _, hj⟩
        exact Event.noConfusion hj
    · simp at hmem
  refine List.mem_append.mpr (Or.inr ?_)
  exact List.mem_map.mpr ⟨i, hdt i hdev, rfl⟩

/-- C5: a run whose source returns exactly limit posts sets TOTAL_POSTS to
limit and ends in PROGRESS = 100 with PROCESSING_DONE = true, and in its
trace the finish transition (which is what sets done) occurs only after
the join of every dispatched comment collector: done = true is never
observable while a dispatched collector of the run is unjoined. -/
theorem run_total_and_joins_before_finish (ps : ProgressState) (store : Store)
    (posts : List Post) (limit : Nat) (phrase : String) (sia : String → ℚ)
    (pw : String → Bool) (cf : String → String → Bool) (cfail : String → Bool)
    (hL : posts.length = limit) :
    (fetch_and_process_data ps store (some posts) limit phrase sia pw cf
        cfail).progress.TOTAL_POSTS = limit ∧
    (fetch_and_process_data ps store (some posts) limit phrase sia pw cf
        cfail).progress.PROGRESS = 100 ∧
    (fetch_and_process_data ps store (some posts) limit phrase sia pw cf
        cfail).progress.PROCESSING_DONE = true ∧
    ∀ pre suf,
      (fetch_and_process_data ps store (some posts) limit phrase sia pw cf
          cfail).trace = pre ++ Event.finish :: suf →
      ∀ i,
        Event.dispatch i ∈ (fetch_and_process_data ps store (some posts) limit
          phrase sia pw cf cfail).trace →
        Event.join i ∈ pre := by
  subst hL
  refine ⟨rfl, rfl, rfl, ?_⟩
  intro pre suf hsplit i hdisp
  refine joins_before_finish_aux
    (runLoop phrase sia pw cf cfail posts.length posts
      { store := store, processed := 0, threads := [], events := [] }).events
    (runLoop phrase sia pw cf cfail posts.length posts
      { store := store, processed := 0, threads := [], events := [] }).threads
    posts.length pre suf i ?_ ?_ hsplit hdisp
  · intro e he
    rcases runLoop_events_shape phrase sia pw cf cfail posts.length posts
        { store := store, processed := 0, threads := [], events := [] } e he with
      h | h | h | h
    · exact absurd h (List.not_mem_nil e)
    · exact Or.inl h
    · exact Or.inr (Or.inl h)
    · exact Or.inr (Or.inr h)
  · intro j hj
    rcases runLoop_dispatch_mem phrase sia pw cf cfail posts.length posts
        { store := store, processed := 0, threads := [], events := [] } j hj with
      h | h
    · exact absurd h (List.not_mem_nil _)
    · exact h

/-- Second sample submission, with no comments. -/
def postX : Post :=
  { id := "p2", subreddit := "cars", authorName := none,
    title := "Another", selftext := "", score := 1,
    numComments := 0, createdUtc := 200000, commentsList := [] }

/-- Instantiation of the completion theorem on a two-post run with
limit 2. -/
theorem run_total_and_joins_before_finish_witness :
    (fetch_and_process_data psStale emptyStore (some [postW, postX]) 2 "ph"
        siaW pwOk cfOk commitOk).progress.TOTAL_POSTS = 2 ∧
    (fetch_and_process_data psStale emptyStore (some [postW, postX]) 2 "ph"
        siaW pwOk cfOk commitOk).progress.PROGRESS = 100 ∧
    (fetch_and_process_data psStale emptyStore (some [postW, postX]) 2 "ph"
        siaW pwOk cfOk commitOk).progress.PROCESSING_DONE = true ∧
    ∀ pre suf,
      (fetch_and_process_data psStale emptyStore (some [postW, postX]) 2 "ph"
          siaW pwOk cfOk commitOk).trace = pre ++ Event.finish :: suf →
      ∀ i,
        Event.dispatch i ∈ (fetch_and_process_data psStale emptyStore
          (some [postW, postX]) 2 "ph" siaW pwOk cfOk commitOk).trace →
        Event.join i ∈ pre :=
  run_total_and_joins_before_finish psStale emptyStore [postW, postX] 2 "ph"
    siaW pwOk cfOk commitOk (by rfl)

/-- C6: each progress update of a run records exactly the truncated
percentage floor(100 * processedCount / total) for the successive processed
counts 1, 2, ..., and the update formula is monotone: for total > 0 and
processed counts p ≤ q the recorded percentages never decrease. -/
theorem progress_updates_floor_monotone (ps : ProgressState) (store : Store)
    (posts : List Post) (limit : Nat) (phrase : String) (sia : String → ℚ)
    (pw : String → Bool) (cf : String → String → Bool)
    (cfail : String → Bool) :
    advancesOf (fetch_and_process_data ps store (some posts) limit phrase sia
        pw cf cfail).trace
      = (List.range' 1 (posts.filter (fun p => p.id ≠ "")).length).map
          (fun k => advancePercent k posts.length) ∧
    (∀ total p q : Nat, 0 < total → p ≤ q →
      advancePercent p total ≤ advancePercent q total) := by
  constructor
  · show advancesOf ([Event.reset, Event.setTotal posts.length] ++
        (runLoop phrase sia pw cf cfail posts.length posts
          { store := store, processed := 0, threads := [], events := [] }).events ++
        (runLoop phrase sia pw cf cfail posts.length posts
          { store := store, processed := 0, threads := [], events := [] }).threads.map
            Event.join ++ [Event.finish]) = _
    rw [advancesOf_append, advancesOf_append, advancesOf_append,
      runLoop_advances, advancesOf_join_map]
    simp [advancesOf]
  · intro total p q ht hpq
    exact Nat.div_le_div_right (Nat.mul_le_mul_right _ hpq)

/-- Monotonicity of the update formula instantiated at total = 49. -/
theorem progress_updates_floor_monotone_witness :
    advancePercent 1 49 ≤ advancePercent 2 49 :=
  (progress_updates_floor_monotone psStale emptyStore [] 0 "x" siaW pwOk cfOk
      commitOk).2 49 1 2 (by decide) (by decide)

/-- db.session.query(RedditComment).delete(): delete every comment row. -/
def clear_comments (s : Store) : Store := { s with comments := [] }

/-- db.session.query(RedditPost).delete(): delete every post row. -/
def clear_posts (s : Store) : Store := { s with posts := [] }

/-- The corpus clear performed by the start_process route: children first,
then parents, then commit; it takes no phrase argument at all. -/
def clear_database (s : Store) : Store := clear_posts (clear_comments s)

/-- C7: the run-start corpus clear deletes all child rows first (leaving
the parent table intact at that intermediate point) and then all parent
rows, and it removes every row of both tables whatever search phrase each
row was stored under: the deletion is not filtered by the requested
phrase. -/
theorem clear_database_unfiltered (s : Store) :
    (clear_comments s).comments = [] ∧
    (clear_comments s).posts = s.posts ∧
    (clear_database s).posts = [] ∧
    (clear_database s).comments = [] ∧
    ∀ phrase : String,
      (clear_database s).posts.filter (fun r => r.search_phrase = phrase) = [] ∧
      (clear_database s).comments.filter (fun r => r.search_phrase = phrase) = [] :=
  ⟨rfl, rfl, rfl, rfl, fun _ => ⟨rfl, rfl⟩⟩

/-- pd.read_sql_query over reddit_posts for one phrase: the rows whose
search_phrase column matches, in table order. -/
def queryParents (s : Store) (phrase : String) : List RedditPost :=
  s.posts.filter (fun r => r.search_phrase = phrase)

/-- The analysis payload computed by analyze_data for a nonempty frame:
occurrence counts per sentiment category, per subreddit and per author, the
per-day positive and negative trend counts (days since the epoch, from the
second-resolution timestamps), and the lowercased corpus text handed to the
word-cloud renderer (the image encoding itself is an external concern). -/
structure FullAnalysis where
  sentiment_distribution : String → Nat
  top_subreddits : String → Nat
  top_redditors : String → Nat
  trendPositive : Int → Nat
  trendNegative : Int → Nat
  word_cloud_text : String

/-- analyze_data from analysis.py; none models the empty dict returned both
when the query raises (queryFails oracle) and when the frame is empty. -/
def analyze_data (s : Store) (phrase : String) (queryFails : Bool) :
    Option FullAnalysis :=
  if queryFails then none
  else
    let df := queryParents s phrase
    if df.isEmpty then none
    else some
      { sentiment_distribution := fun cat =>
          (df.filter (fun r => sentiment_category r.sentiment = cat)).length
        top_subreddits := fun sub =>
          (df.filter (fun r => r.subreddit = sub)).length
        top_redditors := fun a => (df.filter (fun r => r.author = a)).length
        trendPositive := fun d =>
          (df.filter (fun r =>
            r.timestamp.fdiv 86400 = d ∧ 4/10 < r.sentiment)).length
        trendNegative := fun d =>
          (df.filter (fun r =>
            r.timestamp.fdiv 86400 = d ∧ r.sentiment < -(4/10))).length
        word_cloud_text :=
          (String.intercalate " "
            (df.map (fun r => r.title) ++ df.map (fun r => r.content))).toLower }

/-- C8: for a phrase with zero matching parent rows, analyze_data returns
the defined empty result (the empty dict, modelled as none) and raises
nothing: the empty corpus is a defined outcome, not an error. -/
theorem analyze_data_empty_defined (s : Store) (phrase : String)
    (h : queryParents s phrase = []) :
    analyze_data s phrase false = none := by
  unfold analyze_data
  simp [h]

/-- Empty-corpus aggregation instantiated on the empty store. -/
theorem analyze_data_empty_defined_witness :
    analyze_data emptyStore "anything" false = none :=
  analyze_data_empty_defined emptyStore "anything" rfl

/-- The dummy sentinel row inserted at process startup. -/
def dummyPost (now : Int) : RedditPost :=
  { id := "dummy", subreddit := "dummy", author := "dummy", title := "dummy",
    content := "dummy", upvotes := 0, comments := 0, timestamp := now,
    sentiment := 0, search_phrase := "dummy" }

/-- The startup block of analysis.py: after create_all, insert the dummy
row only when no row with id dummy exists yet. -/
def startup_insert_dummy (s : Store) (now : Int) : Store :=
  match s.posts.find? (fun p => p.id = "dummy") with
  | some _ => s
  | none => { s with posts := s.posts ++ [dummyPost now] }

/-- C10: at startup the sentinel parent row with id and phrase dummy is
inserted exactly when absent; starting from a store without it, aggregation
for the phrase dummy then returns a non-empty result; the corpus clear of
the first run removes the sentinel, and the run itself never reinserts a
row with id dummy as long as the source returns no such post. -/
theorem startup_dummy_lifecycle (s : Store) (now : Int)
    (h : s.posts.find? (fun p => p.id = "dummy") = none) :
    dummyPost now ∈ (startup_insert_dummy s now).posts ∧
    (∀ (s' : Store) (now' : Int),
      (s'.posts.find? (fun p => p.id = "dummy")).isSome = true →
      startup_insert_dummy s' now' = s') ∧
    (analyze_data (startup_insert_dummy s now) "dummy" false).isSome = true ∧
    (clear_database (startup_insert_dummy s now)).posts = [] ∧
    ∀ (ps : ProgressState) (posts : List Post) (limit : Nat) (phrase : String)
      (sia : String → ℚ) (pw : String → Bool) (cf : String → String → Bool)
      (cfail : String → Bool),
      (∀ p ∈ posts, p.id ≠ "dummy") →
      ∀ q ∈ (fetch_and_process_data ps
          (clear_database (startup_insert_dummy s now)) (some posts) limit
          phrase sia pw cf cfail).store.posts,
        q.id ≠ "dummy" := by
  have hins : startup_insert_dummy s now
      = { s with posts := s.posts ++ [dummyPost now] } := by
    unfold startup_insert_dummy
    rw [h]
  refine ⟨?_, ?_, ?_, ?_, ?_⟩
  · rw [hins]
    simp
  · intro s' now' hs
    obtain ⟨d, hd⟩ := Option.isSome_iff_exists.mp hs
    unfold startup_insert_dummy
    rw [hd]
  · have hmem : dummyPost now ∈ queryParents (startup_insert_dummy s now) "dummy" := by
      unfold queryParents
      refine List.mem_filter.mpr ⟨?_, by simp [dummyPost]⟩
      rw [hins]
      simp
    have hne : (queryParents (startup_insert_dummy s now) "dummy").isEmpty = false := by
      cases hq : queryParents (startup_insert_dummy s now) "dummy" with
      | nil => rw [hq] at hmem; exact absurd hmem (List.not_mem_nil _)
      | cons a l => rfl
    unfold analyze_data
    simp [hne]
  · rfl
  · intro ps posts limit phrase sia pw cf cfail hnp q hq
    rcases runLoop_store_posts phrase sia pw cf cfail posts.length posts
        { store := clear_database (startup_insert_dummy s now), processed := 0,
          threads := [], events := [] } q hq with h' | ⟨p, hp, e⟩
    · exact absurd h' (List.not_mem_nil q)
    · rw [e]
      exact hnp p hp

/-- The dummy lifecycle instantiated on the empty store at time 0. -/
theorem startup_dummy_lifecycle_witness :
    dummyPost 0 ∈ (startup_insert_dummy emptyStore 0).posts ∧
    (∀ (s' : Store) (now' : Int),
      (s'.posts.find? (fun p => p.id = "dummy")).isSome = true →
      startup_insert_dummy s' now' = s') ∧
    (analyze_data (startup_insert_dummy emptyStore 0) "dummy" false).isSome = true ∧
    (clear_database (startup_insert_dummy emptyStore 0)).posts = [] ∧
    ∀ (ps : ProgressState) (posts : List Post) (limit : Nat) (phrase : String)
      (sia : String → ℚ) (pw : String → Bool) (cf : String → String → Bool)
      (cfail : String → Bool),
      (∀ p ∈ posts, p.id ≠ "dummy") →
      ∀ q ∈ (fetch_and_process_data ps
          (clear_database (startup_insert_dummy emptyStore 0)) (some posts)
          limit phrase sia pw cf cfail).store.posts,
        q.id ≠ "dummy" :=
  startup_dummy_lifecycle emptyStore 0 rfl
